import Mathlib

/-!
Verification of the `as_variant!` rewrite rules of src/lib.rs (crate
as_variant, lines 138-157). The construct has four rules, tried in order:

1. line 139: `( $enum:expr , $pattern:pat $( if $guard:expr )? => $inner:expr $(,)? )`
   expanding to `match $enum { $pattern $(if $guard)? => Some($inner), _ => None }`;
2. line 145: `( $enum:expr , $( $variants:path )|* )`
   expanding to `match $enum { $( $variants(inner) )|* => Some(inner), _ => None }`;
3. line 151: `( $( $variants:path )|* )` expanding to the closure
   `|_enum| as_variant!(_enum, $($variants)|* )`;
4. line 154: `( $pattern:pat $( if $guard:expr )? => $inner:expr $(,)? )` expanding to
   the closure `|_enum| as_variant!(_enum, $pattern $(if $guard)? => $inner)`.

Two embeddings are developed below.

Token model: invocations are abstracted to sequences of top level token
trees (the granularity at which the rewrite rules inspect their input).  A
`path` fragment is a nonempty run of `seg` tokens; a `pat` fragment is a
maximal nonempty run of tokens that are legal at the top level of a pattern
(everything except `=>`, `,` and the keyword `if`, none of which can occur
at the top level of a pattern); an `expr` fragment is a maximal nonempty run
of tokens legal at the top level of an expression (everything except `=>`
and `,`).  Bracketed groups are single indivisible token trees, which is exactly
how the rewrite engine sees them, so a `=>` or `,` nested inside brackets is
invisible here just as it is to the engine.

Semantic model: the generated match expressions are embedded over an
arbitrary value type.  An effectful expression evaluation is a `Res`: the
list of side effects it emits together with the value it produces.  A
pattern is modelled semantically as an Option valued function from values
to the tuple of bindings it captures; a guarded arm carries the list of its
or pattern alternatives.  Evaluation order of the generated match is
strict: scrutinee first, then the (pure) structural tests, then the guard,
then the arm body; when a guard rejects a structurally matching
alternative, the remaining alternatives of the same or pattern are retried
and the guard is evaluated again under the next bindings, as the language
defines for match guards.
-/

namespace AsVariant

/-! ## Token model of the four rewrite rules -/

/-- One top level token tree of an invocation: `seg n` is a path segment
(identifier or `::`), `pipe` is `|`, `ifKw` is the keyword `if`, `arrow` is
`=>`, `comma` is `,`, and `tree n` is any other single token tree (literal,
wildcard, reference token, bracketed group, and so on). -/
inductive Tok where
  | seg : Nat → Tok
  | pipe
  | ifKw
  | arrow
  | comma
  | tree : Nat → Tok
deriving DecidableEq, BEq

/-- Tokens that can occur at the top level of a `pat` fragment: a pattern
never contains a top level `=>`, `,` or `if`. -/
def isPatTok : Tok → Bool
  | Tok.arrow => false
  | Tok.comma => false
  | Tok.ifKw => false
  | _ => true

/-- Tokens that can occur at the top level of an `expr` fragment: an
expression never contains a top level `=>` or `,`. -/
def isExprTok : Tok → Bool
  | Tok.arrow => false
  | Tok.comma => false
  | _ => true

/-- Matcher for the `$( $variants:path )|*` fragment list of rules 2 and 3:
one or more `|`-separated paths, each path a nonempty run of `seg` tokens.
The flag records whether at least one segment of the current path has been
consumed. -/
def variantsAux : List Tok → Bool → Bool
  | [], inPath => inPath
  | Tok.seg _ :: rest, _ => variantsAux rest true
  | Tok.pipe :: rest, true => variantsAux rest false
  | _, _ => false

/-- Matcher for the selector of rules 2 and 3 (`$( $variants:path )|*`): the
repetition also accepts the empty token sequence. -/
def isVariantList (ts : List Tok) : Bool :=
  ts.isEmpty || variantsAux ts false

/-- Parsed pieces of a rule 1 or rule 4 selector: the pattern tokens, the
guard tokens when a guard is present, and the arm body tokens.  The optional
trailing comma is consumed by the matcher and never reaches the expansion,
so it does not appear here. -/
structure ArmParts where
  pat : List Tok
  guardToks : Option (List Tok)
  inner : List Tok
deriving DecidableEq

/-- Matcher for the tail `=> $inner:expr $(,)?` of rules 1 and 4: a `=>`
token, a nonempty arm body, and at most one trailing comma. -/
def parseTail : List Tok → Option (List Tok)
  | Tok.arrow :: rest =>
      let e := rest.takeWhile isExprTok
      let af := rest.dropWhile isExprTok
      if e = [] then none
      else if af = [] then some e
      else if af = [Tok.comma] then some e
      else none
  | _ => none

/-- Continuation of the rule 1 and rule 4 matcher after the pattern
fragment: either `if $guard:expr` and then the tail, or directly the tail. -/
def armCont (p : List Tok) : List Tok → Option ArmParts
  | Tok.ifKw :: rest =>
      let g := rest.takeWhile isExprTok
      if g = [] then none
      else (parseTail (rest.dropWhile isExprTok)).map fun e => ArmParts.mk p (some g) e
  | other => (parseTail other).map fun e => ArmParts.mk p none e

/-- Matcher for the selector of rules 1 and 4
(`$pattern:pat $( if $guard:expr )? => $inner:expr $(,)?`). -/
def parseArm (ts : List Tok) : Option ArmParts :=
  let p := ts.takeWhile isPatTok
  if p = [] then none
  else armCont p (ts.dropWhile isPatTok)

/-- Whether a token sequence matches the rule 1 and rule 4 selector. -/
def isArm (ts : List Tok) : Bool :=
  (parseArm ts).isSome

/-- Selector token sequence of a rule 1 or rule 4 invocation, rebuilt from
its parts: pattern, optional `if` guard, `=>`, arm body, and optionally one
trailing comma. -/
def renderArm (p : List Tok) (g : Option (List Tok)) (e : List Tok) (tc : Bool) : List Tok :=
  p ++ (match g with
        | some gts => Tok.ifKw :: (gts ++ (Tok.arrow :: (e ++ (if tc then [Tok.comma] else []))))
        | none => Tok.arrow :: (e ++ (if tc then [Tok.comma] else [])))

/-- Identity of the four rewrite rules of `as_variant!`. -/
inductive RuleId where
  | armWithSubject
  | variantsWithSubject
  | variantsNoSubject
  | armNoSubject
deriving DecidableEq, BEq

/-- The four rules in the order the source lists them: lines 139, 145, 151
and 154 of src/lib.rs.  The rewrite engine tries them in this order and
takes the first that matches. -/
def ruleOrder : List RuleId :=
  [RuleId.armWithSubject, RuleId.variantsWithSubject,
   RuleId.variantsNoSubject, RuleId.armNoSubject]

/-- Whether one rule matches an invocation, given whether the invocation has
a leading `$enum:expr ,` subject and the selector tokens that follow it. -/
def ruleMatches : RuleId → Bool → List Tok → Bool
  | RuleId.armWithSubject, hasSubj, ts => hasSubj && isArm ts
  | RuleId.variantsWithSubject, hasSubj, ts => hasSubj && isVariantList ts
  | RuleId.variantsNoSubject, hasSubj, ts => !hasSubj && isVariantList ts
  | RuleId.armNoSubject, hasSubj, ts => !hasSubj && isArm ts

/-- Rule selection of the rewrite engine: the first rule in source order
that matches the invocation; `none` is a translation time error. -/
def dispatch (hasSubj : Bool) (ts : List Tok) : Option RuleId :=
  ruleOrder.find? fun r => ruleMatches r hasSubj ts

/-- Modelled from the spec, for comparison with `ruleOrder`: the rule order
the spec describes, in which the pattern form is attempted before the bare
variant list form also in the subjectless case. -/
def claimOrder : List RuleId :=
  [RuleId.armWithSubject, RuleId.variantsWithSubject,
   RuleId.armNoSubject, RuleId.variantsNoSubject]

/-- Rule selection under the order the spec describes. -/
def dispatchClaimOrder (hasSubj : Bool) (ts : List Tok) : Option RuleId :=
  claimOrder.find? fun r => ruleMatches r hasSubj ts

/-- Modelled from the spec, for comparison with the source order: the
statement that in the subjectless case the pattern form rule is attempted
before the bare variant list rule. -/
def claimedNoSubjectOrder : Prop :=
  ruleOrder.indexOf RuleId.armNoSubject < ruleOrder.indexOf RuleId.variantsNoSubject

/-! ## Semantic model of the generated match expressions -/

variable {ε V B R π : Type}

/-- Result of evaluating one effectful expression: the side effects it
emits, in order, and the value it produces. -/
structure Res (ε α : Type) where
  trace : List ε
  val : α
deriving DecidableEq

/-- Or-pattern `p1 | p2 | ...`: alternatives are tried left to right and the
bindings of the first alternative that matches are produced.  This is the
pattern `$( $variants(inner) )|*` of the rule 2 expansion, and also the
or-patterns a rule 1 invocation may use. -/
def orPat : List (V → Option B) → V → Option B
  | [], _ => none
  | p :: ps, v =>
      match p v with
      | some b => some b
      | none => orPat ps v

/-- Expansion of rule 1 without a guard (line 139 of src/lib.rs, the
optional `$( if $guard:expr )?` absent):
`match $enum { $pattern => Some($inner), _ => None }`.  The scrutinee is
evaluated once; on a structural match the arm body is evaluated under the
bindings; otherwise the wildcard arm yields `none`. -/
def as_variant_arm (subj : Res ε V) (p : V → Option B) (inner : B → Res ε R) :
    Res ε (Option R) :=
  match p subj.val with
  | some b => ⟨subj.trace ++ (inner b).trace, some (inner b).val⟩
  | none => ⟨subj.trace, none⟩

/-- Guard testing loop of a guarded match arm whose pattern is the or
pattern of the alternatives `alts`: alternatives are tried left to right;
for each alternative that structurally matches, the guard is evaluated
under the bindings of that alternative; when it yields `true` the loop
stops with those bindings; when it yields `false` the remaining
alternatives are retried and the guard is evaluated again on the next
structurally matching one, which is what the language prescribes for match
guards on or patterns.  The result is the concatenated trace of every
guard evaluation performed, paired with the bindings of the first
alternative whose guard passed, if any. -/
def guardLoop (v : V) (g : B → Res ε Bool) : List (V → Option B) → List ε × Option B
  | [] => ([], none)
  | p :: ps =>
      match p v with
      | some b =>
          if (g b).val then ((g b).trace, some b)
          else ((g b).trace ++ (guardLoop v g ps).1, (guardLoop v g ps).2)
      | none => guardLoop v g ps

/-- Bindings with which the guarded arm is taken, characterized by a
recursion separate from `guardLoop`: the bindings of the first or pattern
alternative that structurally matches with a passing guard. -/
def guardWinner (v : V) (g : B → Res ε Bool) : List (V → Option B) → Option B
  | [] => none
  | p :: ps =>
      match p v with
      | some b => if (g b).val then some b else guardWinner v g ps
      | none => guardWinner v g ps

/-- Effects the guard emits during the alternative loop, characterized by a
recursion separate from `guardLoop`: one guard evaluation per structurally
matching alternative, in order, up to and including the first one whose
guard passes. -/
def guardTrace (v : V) (g : B → Res ε Bool) : List (V → Option B) → List ε
  | [] => []
  | p :: ps =>
      match p v with
      | some b => if (g b).val then (g b).trace else (g b).trace ++ guardTrace v g ps
      | none => guardTrace v g ps

/-- Expansion of rule 1 with a guard (line 139 of src/lib.rs):
`match $enum { $pattern if $guard => Some($inner), _ => None }`, with the
pattern read as the or pattern of the alternatives `alts`.  The scrutinee
is evaluated once; the alternatives are tried in order, the guard being
evaluated once per structurally matching alternative until it first yields
`true`, whereupon the arm body is evaluated under those bindings; when no
alternative passes, control reaches the wildcard arm and the result is
`none`. -/
def as_variant_arm_guarded (subj : Res ε V) (alts : List (V → Option B))
    (g : B → Res ε Bool) (inner : B → Res ε R) : Res ε (Option R) :=
  match (guardLoop subj.val g alts).2 with
  | some b =>
      ⟨subj.trace ++ (guardLoop subj.val g alts).1 ++ (inner b).trace, some (inner b).val⟩
  | none => ⟨subj.trace ++ (guardLoop subj.val g alts).1, none⟩

/-- Expansion of rule 2 (line 145 of src/lib.rs):
`match $enum { $( $variants(inner) )|* => Some(inner), _ => None }`.  Each
listed newtype variant pattern binds the single unnamed field to `inner`,
and the arm body `Some(inner)` is a pure variable reference. -/
def as_variant_variants (subj : Res ε V) (ps : List (V → Option B)) :
    Res ε (Option B) :=
  match orPat ps subj.val with
  | some b => ⟨subj.trace, some b⟩
  | none => ⟨subj.trace, none⟩

/-- Expansion of rule 3 (line 151 of src/lib.rs):
`|_enum| as_variant!(_enum, $($variants)|* )`.  The closure parameter is a
value, and inside the body it is a pure expression with no side effects. -/
def as_variant_closure_variants (ps : List (V → Option B)) : V → Res ε (Option B) :=
  fun _enum => as_variant_variants ⟨[], _enum⟩ ps

/-- Expansion of rule 4 without a guard (line 154 of src/lib.rs):
`|_enum| as_variant!(_enum, $pattern => $inner)`. -/
def as_variant_closure_arm (p : V → Option B) (inner : B → Res ε R) :
    V → Res ε (Option R) :=
  fun _enum => as_variant_arm ⟨[], _enum⟩ p inner

/-- Expansion of rule 4 with a guard (line 154 of src/lib.rs):
`|_enum| as_variant!(_enum, $pattern if $guard => $inner)`. -/
def as_variant_closure_arm_guarded (alts : List (V → Option B)) (g : B → Res ε Bool)
    (inner : B → Res ε R) : V → Res ε (Option R) :=
  fun _enum => as_variant_arm_guarded ⟨[], _enum⟩ alts g inner

/-- Value of an enumerated type whose variants carry one payload each: the
tag of the active variant and the payload stored in it. -/
structure EnumVal (π : Type) where
  tag : Nat
  payload : π
deriving DecidableEq

/-- Pattern `$variants(inner)` for the newtype variant with tag `t`: it
matches exactly the values whose active variant is `t`, binding the single
unnamed field. -/
def variantPat (t : Nat) : EnumVal π → Option π :=
  fun v => if v.tag = t then some v.payload else none

/-- Modelled from the spec, for comparison with the rule 1 expansion: the
hand written longhand `match x { p => Some(e), _ => None }`, written with
option combinators. -/
def longhand_arm (subj : Res ε V) (p : V → Option B) (inner : B → Res ε R) :
    Res ε (Option R) :=
  ⟨subj.trace ++ ((p subj.val).map fun b => (inner b).trace).getD [],
   (p subj.val).map fun b => (inner b).val⟩

/-- Modelled from the spec, for comparison with the rule 1 expansion: the
hand written longhand `match x { p1 | p2 | ... if g => Some(e), _ => None }`,
written with the winner and trace characterizations and option
combinators. -/
def longhand_arm_guarded (subj : Res ε V) (alts : List (V → Option B))
    (g : B → Res ε Bool) (inner : B → Res ε R) : Res ε (Option R) :=
  ⟨subj.trace ++ guardTrace subj.val g alts
     ++ ((guardWinner subj.val g alts).map fun b => (inner b).trace).getD [],
   (guardWinner subj.val g alts).map fun b => (inner b).val⟩

/-- Modelled from the spec, for comparison with the rule 2 expansion: the
hand written longhand `match x { V1(v) | V2(v) | ... => Some(v), _ => None }`,
written with option combinators. -/
def longhand_variants (subj : Res ε V) (ps : List (V → Option B)) :
    Res ε (Option B) :=
  ⟨subj.trace, orPat ps subj.val⟩


/-! ## Helper lemmas -/

theorem takeWhile_append_all {α : Type} (q : α → Bool) (l r : List α)
    (h : ∀ x ∈ l, q x = true) : (l ++ r).takeWhile q = l ++ r.takeWhile q := by
  induction l with
  | nil => simp
  | cons a t ih =>
      have ha : q a = true := h a (List.mem_cons_self a t)
      simp [List.takeWhile_cons, ha, ih fun x hx => h x (List.mem_cons_of_mem a hx)]

theorem dropWhile_append_all {α : Type} (q : α → Bool) (l r : List α)
    (h : ∀ x ∈ l, q x = true) : (l ++ r).dropWhile q = r.dropWhile q := by
  induction l with
  | nil => simp
  | cons a t ih =>
      have ha : q a = true := h a (List.mem_cons_self a t)
      simp [List.dropWhile_cons, ha, ih fun x hx => h x (List.mem_cons_of_mem a hx)]

theorem takeWhile_all {α : Type} (q : α → Bool) (l : List α)
    (h : ∀ x ∈ l, q x = true) : l.takeWhile q = l := by
  simpa using takeWhile_append_all q l [] h

theorem dropWhile_all {α : Type} (q : α → Bool) (l : List α)
    (h : ∀ x ∈ l, q x = true) : l.dropWhile q = [] := by
  simpa using dropWhile_append_all q l [] h

theorem variantsAux_no_arrow_comma :
    ∀ (ts : List Tok) (b : Bool), variantsAux ts b = true →
      Tok.arrow ∉ ts ∧ Tok.comma ∉ ts := by
  intro ts
  induction ts with
  | nil => simp
  | cons a t ih =>
      intro b h
      cases a with
      | seg n =>
          have h2 := ih true (by simpa [variantsAux] using h)
          constructor
          · simp [List.mem_cons, h2.1]
          · simp [List.mem_cons, h2.2]
      | pipe =>
          cases b with
          | false => simp [variantsAux] at h
          | true =>
              have h2 := ih false (by simpa [variantsAux] using h)
              constructor
              · simp [List.mem_cons, h2.1]
              · simp [List.mem_cons, h2.2]
      | ifKw => simp [variantsAux] at h
      | arrow => simp [variantsAux] at h
      | comma => simp [variantsAux] at h
      | tree n => simp [variantsAux] at h

theorem isVariantList_no_arrow (ts : List Tok) (h : isVariantList ts = true) :
    Tok.arrow ∉ ts := by
  cases ts with
  | nil => simp
  | cons a t =>
      have h2 : variantsAux (a :: t) false = true := by
        simpa [isVariantList] using h
      exact (variantsAux_no_arrow_comma (a :: t) false h2).1

theorem isVariantList_no_comma (ts : List Tok) (h : isVariantList ts = true) :
    Tok.comma ∉ ts := by
  cases ts with
  | nil => simp
  | cons a t =>
      have h2 : variantsAux (a :: t) false = true := by
        simpa [isVariantList] using h
      exact (variantsAux_no_arrow_comma (a :: t) false h2).2

theorem parseTail_some_arrow (l : List Tok) (e : List Tok)
    (h : parseTail l = some e) : ∃ rest, l = Tok.arrow :: rest := by
  cases l with
  | nil => simp [parseTail] at h
  | cons a rest =>
      cases a with
      | arrow => exact ⟨rest, rfl⟩
      | seg n => simp [parseTail] at h
      | pipe => simp [parseTail] at h
      | ifKw => simp [parseTail] at h
      | comma => simp [parseTail] at h
      | tree n => simp [parseTail] at h

theorem armCont_some_arrow (p l : List Tok) (parts : ArmParts)
    (h : armCont p l = some parts) : Tok.arrow ∈ l := by
  cases l with
  | nil => simp [armCont, parseTail] at h
  | cons a rest =>
      cases a with
      | arrow => exact List.mem_cons_self _ _
      | ifKw =>
          simp only [armCont] at h
          by_cases hg : List.takeWhile isExprTok rest = []
          · rw [if_pos hg] at h; cases h
          · rw [if_neg hg] at h
            cases hpt : parseTail (List.dropWhile isExprTok rest) with
            | none => rw [hpt] at h; cases h
            | some e =>
                obtain ⟨r2, hr2⟩ := parseTail_some_arrow _ _ hpt
                have hm : Tok.arrow ∈ List.dropWhile isExprTok rest := by
                  rw [hr2]; exact List.mem_cons_self _ _
                exact List.mem_cons_of_mem _ ((List.dropWhile_sublist _).mem hm)
      | seg n =>
          simp only [armCont] at h
          cases hpt : parseTail (Tok.seg n :: rest) with
          | none => rw [hpt] at h; cases h
          | some e => obtain ⟨r2, hr2⟩ := parseTail_some_arrow _ _ hpt; cases hr2
      | pipe =>
          simp only [armCont] at h
          cases hpt : parseTail (Tok.pipe :: rest) with
          | none => rw [hpt] at h; cases h
          | some e => obtain ⟨r2, hr2⟩ := parseTail_some_arrow _ _ hpt; cases hr2
      | comma =>
          simp only [armCont] at h
          cases hpt : parseTail (Tok.comma :: rest) with
          | none => rw [hpt] at h; cases h
          | some e => obtain ⟨r2, hr2⟩ := parseTail_some_arrow _ _ hpt; cases hr2
      | tree n =>
          simp only [armCont] at h
          cases hpt : parseTail (Tok.tree n :: rest) with
          | none => rw [hpt] at h; cases h
          | some e => obtain ⟨r2, hr2⟩ := parseTail_some_arrow _ _ hpt; cases hr2

theorem isArm_arrow (ts : List Tok) (h : isArm ts = true) : Tok.arrow ∈ ts := by
  simp only [isArm, Option.isSome_iff_exists] at h
  obtain ⟨parts, hp⟩ := h
  simp only [parseArm] at hp
  by_cases h0 : List.takeWhile isPatTok ts = []
  · rw [if_pos h0] at hp; cases hp
  · rw [if_neg h0] at hp
    exact (List.dropWhile_sublist _).mem (armCont_some_arrow _ _ _ hp)

theorem variantList_arm_disjoint (ts : List Tok) :
    ¬(isVariantList ts = true ∧ isArm ts = true) := by
  rintro ⟨hv, ha⟩
  exact isVariantList_no_arrow ts hv (isArm_arrow ts ha)

theorem isVariantList_append_comma (ts : List Tok) :
    isVariantList (ts ++ [Tok.comma]) = false := by
  cases h : isVariantList (ts ++ [Tok.comma]) with
  | false => rfl
  | true => exact ((isVariantList_no_comma _ h) (by simp)).elim

theorem parseTail_render (e : List Tok) (tc : Bool) (he : e ≠ [])
    (heall : ∀ x ∈ e, isExprTok x = true) :
    parseTail (Tok.arrow :: (e ++ (if tc then [Tok.comma] else []))) = some e := by
  cases tc with
  | false =>
      have h1 : List.takeWhile isExprTok e = e := takeWhile_all _ _ heall
      have h2 : List.dropWhile isExprTok e = [] := dropWhile_all _ _ heall
      simp [parseTail, h1, h2, he]
  | true =>
      have h1 : List.takeWhile isExprTok (e ++ [Tok.comma]) = e := by
        rw [takeWhile_append_all _ _ _ heall]; simp [List.takeWhile, isExprTok]
      have h2 : List.dropWhile isExprTok (e ++ [Tok.comma]) = [Tok.comma] := by
        rw [dropWhile_append_all _ _ _ heall]; simp [List.dropWhile, isExprTok]
      simp [parseTail, h1, h2, he]

theorem parseArm_render (p e : List Tok) (g : Option (List Tok)) (tc : Bool)
    (hp : p ≠ []) (hpall : ∀ x ∈ p, isPatTok x = true)
    (he : e ≠ []) (heall : ∀ x ∈ e, isExprTok x = true)
    (hg : ∀ gts, g = some gts → gts ≠ [] ∧ ∀ x ∈ gts, isExprTok x = true) :
    parseArm (renderArm p g e tc) = some (ArmParts.mk p g e) := by
  cases g with
  | none =>
      have h1 : List.takeWhile isPatTok
          (p ++ (Tok.arrow :: (e ++ (if tc then [Tok.comma] else [])))) = p := by
        rw [takeWhile_append_all _ _ _ hpall]; simp [List.takeWhile, isPatTok]
      have h2 : List.dropWhile isPatTok
          (p ++ (Tok.arrow :: (e ++ (if tc then [Tok.comma] else [])))) =
          Tok.arrow :: (e ++ (if tc then [Tok.comma] else [])) := by
        rw [dropWhile_append_all _ _ _ hpall]; simp [List.dropWhile, isPatTok]
      simp [parseArm, renderArm, h1, h2, hp, armCont, parseTail_render e tc he heall]
  | some gts =>
      obtain ⟨hgne, hgall⟩ := hg gts rfl
      have h1 : List.takeWhile isPatTok
          (p ++ (Tok.ifKw :: (gts ++ (Tok.arrow :: (e ++ (if tc then [Tok.comma] else [])))))) = p := by
        rw [takeWhile_append_all _ _ _ hpall]; simp [List.takeWhile, isPatTok]
      have h2 : List.dropWhile isPatTok
          (p ++ (Tok.ifKw :: (gts ++ (Tok.arrow :: (e ++ (if tc then [Tok.comma] else [])))))) =
          Tok.ifKw :: (gts ++ (Tok.arrow :: (e ++ (if tc then [Tok.comma] else [])))) := by
        rw [dropWhile_append_all _ _ _ hpall]; simp [List.dropWhile, isPatTok]
      have h3 : List.takeWhile isExprTok
          (gts ++ (Tok.arrow :: (e ++ (if tc then [Tok.comma] else [])))) = gts := by
        rw [takeWhile_append_all _ _ _ hgall]; simp [List.takeWhile, isExprTok]
      have h4 : List.dropWhile isExprTok
          (gts ++ (Tok.arrow :: (e ++ (if tc then [Tok.comma] else [])))) =
          Tok.arrow :: (e ++ (if tc then [Tok.comma] else [])) := by
        rw [dropWhile_append_all _ _ _ hgall]; simp [List.dropWhile, isExprTok]
      simp [parseArm, renderArm, h1, h2, hp, armCont, h3, h4, hgne,
        parseTail_render e tc he heall]

theorem dispatch_eq_claim_order (hasSubj : Bool) (ts : List Tok) :
    dispatch hasSubj ts = dispatchClaimOrder hasSubj ts := by
  cases hA : isArm ts <;> cases hV : isVariantList ts <;> cases hasSubj <;>
    simp [dispatch, dispatchClaimOrder, ruleOrder, claimOrder, List.find?,
      ruleMatches, hA, hV]
  exact absurd ⟨hV, hA⟩ (variantList_arm_disjoint ts)

theorem orPat_map_variantPat (tags : List Nat) (v : EnumVal π) :
    orPat (tags.map variantPat) v = if v.tag ∈ tags then some v.payload else none := by
  induction tags with
  | nil => simp [orPat]
  | cons t rest ih =>
      by_cases h : v.tag = t
      · simp [orPat, variantPat, h]
      · simp [orPat, variantPat, h, ih, List.mem_cons]

theorem guardLoop_eq (v : V) (g : B → Res ε Bool) (alts : List (V → Option B)) :
    guardLoop v g alts = (guardTrace v g alts, guardWinner v g alts) := by
  induction alts with
  | nil => rfl
  | cons p ps ih =>
      cases hp : p v with
      | none => simp [guardLoop, guardTrace, guardWinner, hp, ih]
      | some b =>
          cases hg : (g b).val <;>
            simp [guardLoop, guardTrace, guardWinner, hp, hg, ih]

theorem arm_guarded_val (s : Res ε V) (alts : List (V → Option B))
    (g : B → Res ε Bool) (i : B → Res ε R) :
    (as_variant_arm_guarded s alts g i).val
      = (guardWinner s.val g alts).map fun b => (i b).val := by
  cases hw : guardWinner s.val g alts <;>
    simp [as_variant_arm_guarded, guardLoop_eq, hw]

theorem arm_guarded_trace (s : Res ε V) (alts : List (V → Option B))
    (g : B → Res ε Bool) (i : B → Res ε R) :
    (as_variant_arm_guarded s alts g i).trace
      = s.trace ++ guardTrace s.val g alts
        ++ ((guardWinner s.val g alts).map fun b => (i b).trace).getD [] := by
  cases hw : guardWinner s.val g alts <;>
    simp [as_variant_arm_guarded, guardLoop_eq, hw]

theorem guardWinner_none_iff (v : V) (g : B → Res ε Bool)
    (alts : List (V → Option B)) :
    guardWinner v g alts = none ↔
      ∀ p ∈ alts, ∀ b, p v = some b → (g b).val = false := by
  induction alts with
  | nil => simp [guardWinner]
  | cons p ps ih =>
      cases hp : p v with
      | none => simp [guardWinner, hp, ih, List.forall_mem_cons]
      | some b =>
          cases hg : (g b).val <;>
            simp [guardWinner, hp, hg, ih, List.forall_mem_cons]

theorem guardWinner_isSome_iff (v : V) (g : B → Res ε Bool)
    (alts : List (V → Option B)) :
    (∃ b, guardWinner v g alts = some b) ↔
      ∃ p ∈ alts, ∃ b, p v = some b ∧ (g b).val = true := by
  induction alts with
  | nil => simp [guardWinner]
  | cons p ps ih =>
      cases hp : p v with
      | none => simp [guardWinner, hp, ih, List.exists_mem_cons_iff]
      | some b =>
          cases hg : (g b).val <;>
            simp [guardWinner, hp, hg, ih, List.exists_mem_cons_iff]

theorem guardWinner_of_no_match (v : V) (g : B → Res ε Bool)
    (alts : List (V → Option B)) (h : ∀ p ∈ alts, p v = none) :
    guardWinner v g alts = none := by
  rw [guardWinner_none_iff]
  intro p hp b hb
  rw [h p hp] at hb
  cases hb

theorem guardTrace_of_no_match (v : V) (g : B → Res ε Bool)
    (alts : List (V → Option B)) (h : ∀ p ∈ alts, p v = none) :
    guardTrace v g alts = [] := by
  induction alts with
  | nil => rfl
  | cons p ps ih =>
      have hp := h p (List.mem_cons_self p ps)
      simp [guardTrace, hp, ih fun q hq => h q (List.mem_cons_of_mem p hq)]

/-! ## Claim theorems -/

/-- C1: Form A (variant list) correctness.  For every enumerated value and
every list of newtype variant tags, the rule 2 expansion yields
`some` of the payload of the active variant exactly when the active variant
is among the listed ones, the payload being the original field value, and
`none` otherwise.  The statement covers every list, so in particular every
nonempty one. -/
theorem as_variant_variant_list_correct :
    ∀ (tags : List Nat) (v : EnumVal π) (tr : List ε),
      (as_variant_variants ⟨tr, v⟩ (tags.map variantPat)).val
        = if v.tag ∈ tags then some v.payload else none := by
  intro tags v tr
  by_cases h : v.tag ∈ tags
  · simp [as_variant_variants, orPat_map_variantPat, h]
  · simp [as_variant_variants, orPat_map_variantPat, h]

/-- C2: Form B (pattern, optional guard, arm body) correctness.  The rule 1
expansion yields `some` of the value of the arm body evaluated under the
bindings of the pattern exactly when the subject structurally matches the
pattern and the guard, when present, evaluates to `true` under those
bindings: with an or pattern this means some alternative matches with a
passing guard, the bindings used being those of the first such alternative,
the guard being retried on later alternatives when it rejects an earlier
one; in every other case the result is `none`.  Without a guard the result
is `some` of the arm body value exactly when the pattern matches. -/
theorem as_variant_match_arm_correct :
    ∀ (s : Res ε V) (alts : List (V → Option B)) (p : V → Option B)
      (g : B → Res ε Bool) (i : B → Res ε R),
      (∀ r, (as_variant_arm_guarded s alts g i).val = some r ↔
          ∃ b, guardWinner s.val g alts = some b ∧ (i b).val = r)
      ∧ ((∃ b, guardWinner s.val g alts = some b) ↔
          ∃ p2 ∈ alts, ∃ b, p2 s.val = some b ∧ (g b).val = true)
      ∧ ((as_variant_arm_guarded s alts g i).val = none ↔
          ∀ p2 ∈ alts, ∀ b, p2 s.val = some b → (g b).val = false)
      ∧ (∀ r, (as_variant_arm s p i).val = some r ↔
          ∃ b, p s.val = some b ∧ (i b).val = r)
      ∧ ((as_variant_arm s p i).val = none ↔ p s.val = none) := by
  intro s alts p g i
  refine ⟨?_, guardWinner_isSome_iff s.val g alts, ?_, ?_, ?_⟩
  · intro r
    rw [arm_guarded_val]
    cases hw : guardWinner s.val g alts <;> simp
  · rw [arm_guarded_val, ← guardWinner_none_iff]
    cases hw : guardWinner s.val g alts <;> simp
  · intro r
    cases hp : p s.val <;> simp [as_variant_arm, hp]
  · cases hp : p s.val <;> simp [as_variant_arm, hp]

/-- C3, counterexample: the guard of a guarded arm is not evaluated exactly
once on every input whose structural pattern matches.  In the instance
modelling `as_variant!(1, 1 | _ if { emit; false } => v)` the first or
pattern alternative structurally matches the subject, yet the emitted trace
holds the guard effect twice: the guard rejected the first alternative and
was evaluated again under the bindings of the second. -/
theorem as_variant_guard_retry_counterexample :
    (as_variant_arm_guarded (Res.mk [] 1 : Res Nat Nat)
        [fun v => if v = 1 then some v else none, fun v => some v]
        (fun _ => Res.mk [0] false) (fun b => Res.mk [] b)).trace = [0, 0]
    ∧ (fun v : Nat => if v = 1 then some v else none) 1 = some 1 := by
  constructor
  · decide
  · decide

/-- C3, amended: guard evaluation order in the rule 1 expansion.  The guard
is never evaluated when the structural pattern fails, that is when no or
pattern alternative matches.  When the pattern matches, the guard is
evaluated after the subject and before the arm body, once per structurally
matching alternative, in order, up to and including the first alternative
on which it evaluates `true`; for a pattern with a single alternative this
is exactly once per match.  Guard side effects therefore never fire on non
matching input, but can fire more than once on matching input when the
guard rejects earlier alternatives of an or pattern. -/
theorem as_variant_guard_evaluation_amended :
    ∀ (s : Res ε V) (alts : List (V → Option B)) (g : B → Res ε Bool)
      (i : B → Res ε R) (p1 : V → Option B),
      ((∀ p2 ∈ alts, p2 s.val = none) →
        (as_variant_arm_guarded s alts g i).trace = s.trace)
      ∧ ((as_variant_arm_guarded s alts g i).trace
          = s.trace ++ guardTrace s.val g alts
            ++ ((guardWinner s.val g alts).map fun b => (i b).trace).getD [])
      ∧ (∀ b, p1 s.val = some b →
          (as_variant_arm_guarded s [p1] g i).trace
            = s.trace ++ (g b).trace ++ (if (g b).val then (i b).trace else [])) := by
  intro s alts g i p1
  refine ⟨?_, arm_guarded_trace s alts g i, ?_⟩
  · intro h
    rw [arm_guarded_trace, guardTrace_of_no_match _ _ _ h,
      guardWinner_of_no_match _ _ _ h]
    simp
  · intro b hb
    rw [arm_guarded_trace]
    cases hg : (g b).val <;> simp [guardTrace, guardWinner, hb, hg]

/-- C4: closure form equivalence.  For every value, the closures produced by
the subjectless rules 3 and 4 return, when applied to that value, exactly
the result of the corresponding two argument invocation whose subject is
that value, for the variant list form and for the pattern form with and
without a guard.  Each equation holds definitionally, since rules 3 and 4
expand literally to `|_enum| as_variant!(_enum, ...)`. -/
theorem as_variant_closure_equiv :
    ∀ (v : V) (ps alts : List (V → Option B)) (p : V → Option B)
      (g : B → Res ε Bool) (i : B → Res ε R),
      @as_variant_closure_variants ε V B ps v = as_variant_variants ⟨[], v⟩ ps
      ∧ as_variant_closure_arm p i v = as_variant_arm ⟨[], v⟩ p i
      ∧ as_variant_closure_arm_guarded alts g i v
          = as_variant_arm_guarded ⟨[], v⟩ alts g i := by
  intro v ps alts p g i
  exact ⟨rfl, rfl, rfl⟩

/-- C5: the subject expression is evaluated exactly once.  For the three
subject carrying expansions, the emitted effect trace is exactly the trace
of one evaluation of the subject expression followed by the effects of the
guard and arm body evaluations the match outcome calls for, whether the
outcome is present or absent; the subject trace never occurs a second
time. -/
theorem as_variant_subject_once :
    ∀ (s : Res ε V) (p : V → Option B) (g : B → Res ε Bool) (i : B → Res ε R)
      (ps alts : List (V → Option B)),
      (as_variant_arm_guarded s alts g i).trace
        = s.trace ++ (guardTrace s.val g alts
            ++ ((guardWinner s.val g alts).map fun b => (i b).trace).getD [])
      ∧ (as_variant_arm s p i).trace
        = s.trace ++ (match p s.val with
                      | some b => (i b).trace
                      | none => [])
      ∧ (as_variant_variants s ps).trace = s.trace := by
  intro s p g i ps alts
  refine ⟨?_, ?_, ?_⟩
  · rw [arm_guarded_trace, List.append_assoc]
  · cases hp : p s.val <;> simp [as_variant_arm, hp]
  · cases ho : orPat ps s.val <;> simp [as_variant_variants, ho]

/-- C6: no runtime failure and exhaustive dual outcome.  Every expansion
yields exactly one of the two outcomes `some` or `none`, and whenever the
match falls through to the wildcard arm the result it supplies is `none`.
The embedded expansions are total functions, so the construct itself has no
runtime failure; its only failure is the translation time one modelled by
`dispatch` returning `none`. -/
theorem as_variant_total_dual_outcome :
    ∀ (s : Res ε V) (p : V → Option B) (g : B → Res ε Bool) (i : B → Res ε R)
      (ps alts : List (V → Option B)),
      ((as_variant_arm_guarded s alts g i).val = none
        ∨ ∃ r, (as_variant_arm_guarded s alts g i).val = some r)
      ∧ (guardWinner s.val g alts = none →
          (as_variant_arm_guarded s alts g i).val = none)
      ∧ ((as_variant_arm s p i).val = none ∨ ∃ r, (as_variant_arm s p i).val = some r)
      ∧ (p s.val = none → (as_variant_arm s p i).val = none)
      ∧ ((as_variant_variants s ps).val = none
        ∨ ∃ r, (as_variant_variants s ps).val = some r)
      ∧ (orPat ps s.val = none → (as_variant_variants s ps).val = none) := by
  intro s p g i ps alts
  refine ⟨?_, ?_, ?_, ?_, ?_, ?_⟩
  · cases h : (as_variant_arm_guarded s alts g i).val with
    | none => exact Or.inl rfl
    | some r => exact Or.inr ⟨r, rfl⟩
  · intro hw; rw [arm_guarded_val, hw]; rfl
  · cases h : (as_variant_arm s p i).val with
    | none => exact Or.inl rfl
    | some r => exact Or.inr ⟨r, rfl⟩
  · intro hp; simp [as_variant_arm, hp]
  · cases h : (as_variant_variants s ps).val with
    | none => exact Or.inl rfl
    | some r => exact Or.inr ⟨r, rfl⟩
  · intro ho; simp [as_variant_variants, ho]

/-- C7: equivalence to the hand written longhand match.  Each of the three
expansions is equal, on all inputs, to the longhand conditional match
written directly by hand, value and effect trace alike: no extra
evaluation and no change of result. -/
theorem as_variant_longhand_equiv :
    ∀ (s : Res ε V) (p : V → Option B) (g : B → Res ε Bool) (i : B → Res ε R)
      (ps alts : List (V → Option B)),
      as_variant_arm s p i = longhand_arm s p i
      ∧ as_variant_arm_guarded s alts g i = longhand_arm_guarded s alts g i
      ∧ as_variant_variants s ps = longhand_variants s ps := by
  intro s p g i ps alts
  refine ⟨?_, ?_, ?_⟩
  · cases hp : p s.val <;> simp [as_variant_arm, longhand_arm, hp]
  · calc as_variant_arm_guarded s alts g i
        = ⟨(as_variant_arm_guarded s alts g i).trace,
           (as_variant_arm_guarded s alts g i).val⟩ := rfl
      _ = longhand_arm_guarded s alts g i := by
          rw [arm_guarded_trace, arm_guarded_val]; rfl
  · cases ho : orPat ps s.val <;> simp [as_variant_variants, longhand_variants, ho]

/-- C8, counterexample: in the source order of the four rewrite rules, the
subjectless variant list rule (line 151) comes before the subjectless
pattern rule (line 154), so the claim that the pattern form is attempted
first in the subjectless case is false of the source. -/
theorem as_variant_rule_order_counterexample :
    ruleOrder.indexOf RuleId.variantsNoSubject < ruleOrder.indexOf RuleId.armNoSubject
    ∧ ¬ claimedNoSubjectOrder := by
  refine ⟨by decide, ?_⟩
  show ¬ (ruleOrder.indexOf RuleId.armNoSubject < ruleOrder.indexOf RuleId.variantsNoSubject)
  decide

/-- C8, amended: the source tries the subjectless variant list rule before
the subjectless pattern rule, but no selector token sequence matches both
rules (a variant list contains no top level `=>` while the pattern form
requires one), so rule selection is the same under the source order and
under the order the spec describes, for every invocation. -/
theorem as_variant_rule_order_amended :
    ∀ (hasSubj : Bool) (ts : List Tok),
      ¬(isVariantList ts = true ∧ isArm ts = true)
      ∧ dispatch hasSubj ts = dispatchClaimOrder hasSubj ts := by
  intro b ts
  exact ⟨variantList_arm_disjoint ts, dispatch_eq_claim_order b ts⟩

/-- C9: Form A reduces to Form B.  The rule 2 expansion for a variant list
equals, on all inputs, the rule 1 expansion whose pattern is the or pattern
of the listed newtype variant patterns and whose arm body is the bound
variable itself; in particular a single listed variant equals the
invocation `as_variant!(v, V(x) => x)`. -/
theorem as_variant_variants_reduce_to_arm :
    ∀ (s : Res ε V) (ps : List (V → Option B)) (p1 : V → Option B),
      as_variant_variants s ps = as_variant_arm s (orPat ps) (fun b => ⟨[], b⟩)
      ∧ as_variant_variants s [p1] = as_variant_arm s p1 (fun b => ⟨[], b⟩) := by
  intro s ps p1
  constructor
  · cases ho : orPat ps s.val <;> simp [as_variant_variants, as_variant_arm, ho]
  · cases hp : p1 s.val <;> simp [as_variant_variants, as_variant_arm, orPat, hp]

/-- C10: trailing comma asymmetry.  The rule 1 and rule 4 selector accepts
one optional trailing comma after the arm body and parses to the same parts
with or without it, with and without a guard, so the expansion is
identical; the variant list selector of rules 2 and 3 accepts no token
sequence ending in a comma. -/
theorem as_variant_trailing_comma :
    ∀ (p e gts : List Tok),
      p ≠ [] → (∀ x ∈ p, isPatTok x = true) →
      e ≠ [] → (∀ x ∈ e, isExprTok x = true) →
      gts ≠ [] → (∀ x ∈ gts, isExprTok x = true) →
      (parseArm (renderArm p (some gts) e true) = some (ArmParts.mk p (some gts) e)
        ∧ parseArm (renderArm p (some gts) e false) = some (ArmParts.mk p (some gts) e))
      ∧ (parseArm (renderArm p none e true) = some (ArmParts.mk p none e)
        ∧ parseArm (renderArm p none e false) = some (ArmParts.mk p none e))
      ∧ ∀ ts, isVariantList (ts ++ [Tok.comma]) = false := by
  intro p e gts hp hpall he heall hg hgall
  have hsome : ∀ g2, some gts = some g2 → g2 ≠ [] ∧ ∀ x ∈ g2, isExprTok x = true := by
    intro g2 hg2
    injection hg2 with h
    exact h ▸ ⟨hg, hgall⟩
  have hnone : ∀ g2, (none : Option (List Tok)) = some g2 →
      g2 ≠ [] ∧ ∀ x ∈ g2, isExprTok x = true := by
    intro g2 hg2
    cases hg2
  exact ⟨⟨parseArm_render p e (some gts) true hp hpall he heall hsome,
          parseArm_render p e (some gts) false hp hpall he heall hsome⟩,
         ⟨parseArm_render p e none true hp hpall he heall hnone,
          parseArm_render p e none false hp hpall he heall hnone⟩,
         fun ts => isVariantList_append_comma ts⟩

/-- C10, witness: the trailing comma theorem applied to the concrete
selector `A if B => C`, with and without the trailing comma. -/
theorem as_variant_trailing_comma_witness :
    parseArm (renderArm [Tok.seg 0] (some [Tok.seg 1]) [Tok.seg 2] true)
      = some (ArmParts.mk [Tok.seg 0] (some [Tok.seg 1]) [Tok.seg 2])
    ∧ parseArm (renderArm [Tok.seg 0] (some [Tok.seg 1]) [Tok.seg 2] false)
      = some (ArmParts.mk [Tok.seg 0] (some [Tok.seg 1]) [Tok.seg 2])
    ∧ isVariantList ([Tok.seg 0] ++ [Tok.comma]) = false :=
  ⟨(as_variant_trailing_comma [Tok.seg 0] [Tok.seg 2] [Tok.seg 1] (by decide)
      (by simp [isPatTok]) (by decide) (by simp [isExprTok]) (by decide)
      (by simp [isExprTok])).1.1,
   (as_variant_trailing_comma [Tok.seg 0] [Tok.seg 2] [Tok.seg 1] (by decide)
      (by simp [isPatTok]) (by decide) (by simp [isExprTok]) (by decide)
      (by simp [isExprTok])).1.2,
   (as_variant_trailing_comma [Tok.seg 0] [Tok.seg 2] [Tok.seg 1] (by decide)
      (by simp [isPatTok]) (by decide) (by simp [isExprTok]) (by decide)
      (by simp [isExprTok])).2.2 [Tok.seg 0]⟩

end AsVariant
